import Mathlib

/-!
# Verification of the sqld connection, session and config core

Shallow embedding of the core data model and operations of the `sqld`
daemon: the batch-to-program lowering and conditional rollback tail
(`src/connection/mod.rs`), the throttled connection factory with its
waiters guard and memory-pressure permit sizing (`src/connection/mod.rs`),
the Hrana session request dispatch over streams, stored SQL texts and
cursors (`src/hrana/ws/session.rs`), the bounded cursor drain loop of
`FetchCursor`, and the database config store (`src/connection/config.rs`).

Rust `HashMap<i32, V>` session tables are embedded as association lists
over `Int` keys with a no-duplicate-keys invariant; machine integers that
never overflow in the modelled scenarios are embedded as `Nat`/`Int`.
-/

set_option maxRecDepth 8000

namespace Sqld

/-! ## Queries, conditions, steps (connection/program.rs as used by connection/mod.rs) -/

/-- A parsed statement with bound parameters and a want-rows flag.
The statement is embedded as its SQL text. -/
structure Query where
  stmt : String
  params : List String
  wantRows : Bool
deriving Repr, DecidableEq

/-- Boolean tree over prior step outcomes (`Cond` in connection/program.rs). -/
inductive Cond where
  | ok (step : Nat)
  | err (step : Nat)
  | not (cond : Cond)
  | and (a : Cond) (b : Cond)
  | or (a : Cond) (b : Cond)
deriving Repr, DecidableEq

/-- A program step: a query guarded by an optional condition. -/
structure Step where
  cond : Option Cond
  query : Query
deriving Repr, DecidableEq

/-- The query built by `Statement::parse("ROLLBACK")` with empty params and
`want_rows: false`, as constructed in `execute_batch_or_rollback`. -/
def rollbackQuery : Query := { stmt := "ROLLBACK", params := [], wantRows := false }

/-- `make_batch_program` (connection/mod.rs): step 0 is unconditional, and
step `i > 0` is guarded by `Ok(i - 1)`. -/
def make_batch_program (batch : List Query) : List Step :=
  batch.enum.map fun p =>
    { cond := if p.1 > 0 then some (Cond.ok (p.1 - 1)) else none, query := p.2 }

/-- The step list built by `Connection::execute_batch_or_rollback`: the lowered
batch, plus — when the batch is non-empty — a `ROLLBACK` step guarded by
`Not(Ok(last_original))`. -/
def batchOrRollbackSteps (batch : List Query) : List Step :=
  let steps := make_batch_program batch
  if steps.isEmpty then steps
  else
    steps ++ [{ query := rollbackQuery,
                cond := some (Cond.not (Cond.ok (steps.length - 1))) }]

/-! ## Throttler (connection/mod.rs) -/

/-- `MakeThrottledConnection::units_to_take`: semaphore unit cost as a
function of the current total response size and the configured maximum. -/
def units_to_take (totalResponseSize maxTotalResponseSize : Nat) : Nat :=
  if totalResponseSize * 2 > maxTotalResponseSize then 16
  else if totalResponseSize * 4 > maxTotalResponseSize then 4
  else 1

/-- Counting semaphore state: the number of available permits. -/
structure SemState where
  available : Nat
deriving Repr, DecidableEq

/-- `acquire_many_owned units` on the success path: when enough permits are
available, returns a permit holding `units` units and the reduced semaphore. -/
def acquireMany (units : Nat) (s : SemState) : Option (Nat × SemState) :=
  if units ≤ s.available then some (units, { available := s.available - units })
  else none

/-- The permit-unit accounting of `MakeThrottledConnection::create` when the
semaphore acquisitions complete without blocking: sample the gauge (`r1`) and
acquire that unit cost; re-sample (`r2`) and, when the re-sampled cost exceeds
1, acquire that full cost again and merge it into the held permit. -/
def createAcquiredUnits (r1 r2 maxTotal : Nat) (s : SemState) :
    Option (Nat × SemState) :=
  match acquireMany (units_to_take r1 maxTotal) s with
  | none => none
  | some (permit, s1) =>
    let units := units_to_take r2 maxTotal
    if units > 1 then
      match acquireMany units s1 with
      | none => none
      | some (memPermit, s2) => some (permit + memPermit, s2)
    else some (permit, s1)

/-- Outcome of one `create()` call on the throttled factory. -/
inductive CreateOutcome where
  | tooManyRequests
  | dbCreateTimeout
  | factoryError
  | success (permitUnits : Nat)
deriving Repr, DecidableEq

/-- Fault injection for the suspension points of `create()`. -/
structure CreateFaults where
  firstAcquireTimesOut : Bool
  secondAcquireTimesOut : Bool
  factoryFails : Bool
deriving Repr, DecidableEq

/-- `MakeThrottledConnection::create` instrumented for the waiters counter:
the `WaitersGuard` increments on construction and decrements when dropped,
which happens on every exit path (early rejection, timeout via `?`, factory
error via `?`, and normal return).  Returns the outcome, the counter value
read right after the increment, and the counter value after the call. -/
def createRun (r1 r2 maxTotal : Nat) (f : CreateFaults) (w0 : Nat) :
    CreateOutcome × Nat × Nat :=
  let u1 := units_to_take r1 maxTotal
  let w := w0 + 1
  if w ≥ 128 then (.tooManyRequests, w, w - 1)
  else if f.firstAcquireTimesOut then (.dbCreateTimeout, w, w - 1)
  else
    let u2 := units_to_take r2 maxTotal
    if u2 > 1 then
      if f.secondAcquireTimesOut then (.dbCreateTimeout, w, w - 1)
      else if f.factoryFails then (.factoryError, w, w - 1)
      else (.success (u1 + u2), w, w - 1)
    else if f.factoryFails then (.factoryError, w, w - 1)
    else (.success u1, w, w - 1)

/-- State of the waiter-cap scenario: `create()` calls pending on an empty
semaphore (each holding its `WaitersGuard` increment) and calls already
rejected with `TooManyRequests` (each having decremented on return). -/
structure ThrottleScenario where
  pending : Nat
  failed : Nat
deriving Repr, DecidableEq

/-- One `create()` arrival while the single permit is held and no pending call
completes: the guard increments the counter (pending calls hold theirs), the
call fails when the fresh read is at least 128 and otherwise pends on the
semaphore acquisition. -/
def admitOne (sc : ThrottleScenario) : ThrottleScenario :=
  if sc.pending + 1 ≥ 128 then { sc with failed := sc.failed + 1 }
  else { sc with pending := sc.pending + 1 }

/-- `n` sequential `create()` arrivals against a held single permit. -/
def admitCalls : Nat → ThrottleScenario
  | 0 => ⟨0, 0⟩
  | n + 1 => admitOne (admitCalls n)

/-! ## FetchCursor drain loop (hrana/ws/session.rs) -/

/-- A cursor entry together with its byte size, as produced by
`CursorHandle::fetch` (`sized_entry.entry` / `sized_entry.size`).
The entry payload is embedded as an opaque tag. -/
structure SizedEntry where
  entry : Nat
  size : Nat
deriving Repr, DecidableEq

/-- Total byte size of a list of entries. -/
def sizeSum (l : List SizedEntry) : Nat := (l.map SizedEntry.size).sum

/-- The `FetchCursor` drain loop: while fewer than `maxCount` entries have
been taken and the accumulated size is strictly below `maxTotalSize`, fetch
the next entry; `done` becomes true exactly when the producer yields `None`.
`count` and `total` are the loop accumulators (`entries.len()` and
`total_size`).  Returns the entries taken, the final `total_size`, and
`done`. -/
def fetchDrain (maxCount maxTotalSize : Nat) :
    List SizedEntry → Nat → Nat → List SizedEntry × Nat × Bool
  | [], count, total =>
    if count < maxCount ∧ total < maxTotalSize then ([], total, true)
    else ([], total, false)
  | e :: rest, count, total =>
    if count < maxCount ∧ total < maxTotalSize then
      let r := fetchDrain maxCount maxTotalSize rest (count + 1) (total + e.size)
      (e :: r.1, r.2.1, r.2.2)
    else ([], total, false)

/-- The reply to a `FetchCursor` request with request limit `maxCount` against
a server whose `max_response_size` is `maxResponseSize`: the byte budget is
`max_response_size / 8` and the accumulators start at zero. -/
def fetchCursorResp (maxCount maxResponseSize : Nat) (producer : List SizedEntry) :
    List SizedEntry × Nat × Bool :=
  fetchDrain maxCount (maxResponseSize / 8) producer 0 0

/-! ## Database config store (connection/config.rs) -/

/-- JSON values, the codomain of the serde serialization of `DatabaseConfig`. -/
inductive Json where
  | null
  | bool (b : Bool)
  | num (n : Int)
  | str (s : String)
deriving Repr, DecidableEq

/-- `DatabaseConfig`: all fields carry `#[serde(default)]`. -/
structure DatabaseConfig where
  block_reads : Bool
  block_writes : Bool
  block_reason : Option String
deriving Repr, DecidableEq

/-- `DatabaseConfig::default()`. -/
def defaultConfig : DatabaseConfig :=
  { block_reads := false, block_writes := false, block_reason := none }

/-- serde serialization of `DatabaseConfig` at the JSON-value level
(`serde_json::to_vec_pretty` renders this value as text). -/
def serializeConfig (c : DatabaseConfig) : List (String × Json) :=
  [("block_reads", Json.bool c.block_reads),
   ("block_writes", Json.bool c.block_writes),
   ("block_reason", match c.block_reason with
     | none => Json.null
     | some s => Json.str s)]

/-- Field lookup in a serialized JSON object. -/
def lookupField (name : String) : List (String × Json) → Option Json
  | [] => none
  | (n, v) :: rest => if n = name then some v else lookupField name rest

/-- serde deserialization of a `bool` field. -/
def decodeBool : Json → Option Bool
  | .bool b => some b
  | _ => none

/-- serde deserialization of an `Option<String>` field. -/
def decodeOptString : Json → Option (Option String)
  | .null => some none
  | .str s => some (some s)
  | _ => none

/-- serde deserialization of `DatabaseConfig` at the JSON-value level
(`serde_json::from_slice`): each field falls back to its default when
missing, and fails on a type mismatch. -/
def deserializeConfig (fields : List (String × Json)) : Option DatabaseConfig := do
  let blockReads ← match lookupField "block_reads" fields with
    | none => some false
    | some j => decodeBool j
  let blockWrites ← match lookupField "block_writes" fields with
    | none => some false
    | some j => decodeBool j
  let blockReason ← match lookupField "block_reason" fields with
    | none => some none
    | some j => decodeOptString j
  some { block_reads := blockReads, block_writes := blockWrites,
         block_reason := blockReason }

/-- On-disk state of the database directory: the contents of `config.json`
and of the staging file `config.json~` (`none` = the file does not exist).
File contents are embedded at the JSON-value level. -/
structure ConfigDir where
  configJson : Option (List (String × Json))
  tmpConfigJson : Option (List (String × Json))
deriving Repr, DecidableEq

/-- In-memory state of a `DatabaseConfigStore`: the directory plus the
`Mutex<Arc<DatabaseConfig>>` snapshot. -/
structure ConfigStoreState where
  dir : ConfigDir
  snapshot : DatabaseConfig
deriving Repr, DecidableEq

/-- Errors surfaced by the config store. -/
inductive ConfigError where
  | ioError
  | deserializeError
deriving Repr, DecidableEq

/-- Fault injection for the I/O steps of `DatabaseConfigStore::store`. -/
structure IoFaults where
  writeFails : Bool
  renameFails : Bool
deriving Repr, DecidableEq

/-- `DatabaseConfigStore::store`: serialize the config, write it to the
staging file `config.json~`, rename the staging file over `config.json`,
and only then swap the in-memory snapshot.  Each fallible step propagates
its error with `?`; the state reached so far is kept. -/
def storeRun (f : IoFaults) (st : ConfigStoreState) (c : DatabaseConfig) :
    Except ConfigError Unit × ConfigStoreState :=
  let data := serializeConfig c
  if f.writeFails then (.error .ioError, st)
  else
    let st1 : ConfigStoreState :=
      { st with dir := { st.dir with tmpConfigJson := some data } }
    if f.renameFails then (.error .ioError, st1)
    else
      (.ok (), { dir := { configJson := some data, tmpConfigJson := none },
                 snapshot := c })

/-- `DatabaseConfigStore::get`: the current snapshot. -/
def getConfig (st : ConfigStoreState) : DatabaseConfig := st.snapshot

/-- `DatabaseConfigStore::load`: read `config.json`; a missing file yields
the default config, malformed content is an error. -/
def loadStore (dir : ConfigDir) : Except ConfigError ConfigStoreState :=
  match dir.configJson with
  | none => .ok { dir := dir, snapshot := defaultConfig }
  | some fields =>
    match deserializeConfig fields with
    | none => .error .deserializeError
    | some c => .ok { dir := dir, snapshot := c }

/-! ## Hrana session dispatch (hrana/ws/session.rs)

The session tables `streams : HashMap<i32, StreamHandle>`,
`sqls : HashMap<i32, String>` and `cursors : HashMap<i32, i32>` are
embedded as association lists with no duplicate keys.  The protocol
version `Hrana1 | Hrana2 | Hrana3` is embedded as `1 | 2 | 3`. -/

/-- Association-list lookup (`HashMap::get` / `contains_key`). -/
def lookupA {α : Type} (k : Int) : List (Int × α) → Option α
  | [] => none
  | (k', v) :: rest => if k' = k then some v else lookupA k rest

/-- Association-list removal (`HashMap::remove`). -/
def removeA {α : Type} (k : Int) (m : List (Int × α)) : List (Int × α) :=
  m.filter fun p => p.1 ≠ k

/-- In-place mutation of the entry at key `k` (`HashMap::get_mut` plus a
field assignment). -/
def updateA {α : Type} (k : Int) (v : α) (m : List (Int × α)) : List (Int × α) :=
  m.map fun p => if p.1 = k then (k, v) else p

/-- Key distinctness of an association list. -/
def keysNodup {α : Type} (m : List (Int × α)) : Prop := (m.map Prod.fst).Nodup

/-- The session-visible part of a `StreamHandle`: the id of the stream's
currently open cursor, if any. -/
structure StreamHandle where
  cursorId : Option Int
deriving Repr, DecidableEq

/-- Session state: negotiated version and the three tables. -/
structure Session where
  version : Nat
  streams : List (Int × StreamHandle)
  sqls : List (Int × String)
  cursors : List (Int × Int)
deriving Repr, DecidableEq

/-- `MAX_SQL_COUNT` (hrana/ws/session.rs). -/
def MAX_SQL_COUNT : Nat := 150

/-- The inbound requests dispatched by `handle_request`, with the inputs
that the session-table transitions depend on.  `compiles` models whether
`proto_batch_to_program` succeeds in the `OpenCursor` arm (a failure there
happens before any table is touched). -/
inductive Request where
  | openStream (streamId : Int)
  | closeStream (streamId : Int)
  | execute (streamId : Int)
  | batch (streamId : Int)
  | sequence (streamId : Int)
  | describe (streamId : Int)
  | storeSql (sqlId : Int) (sql : String)
  | closeSql (sqlId : Int)
  | openCursor (cursorId : Int) (streamId : Int) (compiles : Bool)
  | closeCursor (cursorId : Int)
  | fetchCursor (cursorId : Int)
  | getAutocommit (streamId : Int)
deriving Repr, DecidableEq

/-- The errors `handle_request` bails with (protocol and response errors). -/
inductive HandleError where
  | notSupported
  | streamExists
  | streamNotFound
  | sqlExists
  | sqlTooMany
  | cursorAlreadyOpen
  | cursorExists
  | cursorNotFound
  | compileError
deriving Repr, DecidableEq

/-- Immediate outcome of `handle_request`: the request was dispatched, it
bailed with an error, or an `assert_eq!` failed. -/
inductive HandleOutcome where
  | ok
  | err (e : HandleError)
  | assertFailed
deriving Repr, DecidableEq

/-- `handle_request` restricted to its effect on the session tables and its
immediate outcome (the per-stream jobs it enqueues touch only worker-local
state).  Each arm mirrors the source: version gating first, then the checks
and mutations in source order. -/
def handleRequest (s : Session) (req : Request) : HandleOutcome × Session :=
  match req with
  | .openStream sid =>
    if (lookupA sid s.streams).isSome then (.err .streamExists, s)
    else (.ok, { s with streams := (sid, { cursorId := none }) :: s.streams })
  | .closeStream sid =>
    match lookupA sid s.streams with
    | none => (.err .streamNotFound, s)
    | some h =>
      let s1 := { s with streams := removeA sid s.streams }
      match h.cursorId with
      | some cid => (.ok, { s1 with cursors := removeA cid s1.cursors })
      | none => (.ok, s1)
  | .execute sid =>
    match lookupA sid s.streams with
    | none => (.err .streamNotFound, s)
    | some _ => (.ok, s)
  | .batch sid =>
    match lookupA sid s.streams with
    | none => (.err .streamNotFound, s)
    | some _ => (.ok, s)
  | .sequence sid =>
    if s.version < 2 then (.err .notSupported, s)
    else match lookupA sid s.streams with
      | none => (.err .streamNotFound, s)
      | some _ => (.ok, s)
  | .describe sid =>
    if s.version < 2 then (.err .notSupported, s)
    else match lookupA sid s.streams with
      | none => (.err .streamNotFound, s)
      | some _ => (.ok, s)
  | .storeSql sqlId sql =>
    if s.version < 2 then (.err .notSupported, s)
    else if (lookupA sqlId s.sqls).isSome then (.err .sqlExists, s)
    else if s.sqls.length ≥ MAX_SQL_COUNT then (.err .sqlTooMany, s)
    else (.ok, { s with sqls := (sqlId, sql) :: s.sqls })
  | .closeSql sqlId =>
    if s.version < 2 then (.err .notSupported, s)
    else (.ok, { s with sqls := removeA sqlId s.sqls })
  | .openCursor cid sid compiles =>
    if s.version < 3 then (.err .notSupported, s)
    else match lookupA sid s.streams with
      | none => (.err .streamNotFound, s)
      | some h =>
        if h.cursorId.isSome then (.err .cursorAlreadyOpen, s)
        else if (lookupA cid s.cursors).isSome then (.err .cursorExists, s)
        else if compiles = false then (.err .compileError, s)
        else (.ok, { s with
                     cursors := (cid, sid) :: s.cursors,
                     streams := updateA sid { cursorId := some cid } s.streams })
  | .closeCursor cid =>
    if s.version < 3 then (.err .notSupported, s)
    else match lookupA cid s.cursors with
      | none => (.err .cursorNotFound, s)
      | some sid =>
        let s1 := { s with cursors := removeA cid s.cursors }
        match lookupA sid s1.streams with
        | none => (.err .streamNotFound, s1)
        | some h =>
          if h.cursorId = some cid then
            (.ok, { s1 with streams := updateA sid { cursorId := none } s1.streams })
          else (.assertFailed, s1)
  | .fetchCursor cid =>
    if s.version < 3 then (.err .notSupported, s)
    else match lookupA cid s.cursors with
      | none => (.err .cursorNotFound, s)
      | some sid =>
        match lookupA sid s.streams with
        | none => (.err .streamNotFound, s)
        | some h =>
          if h.cursorId = some cid then (.ok, s) else (.assertFailed, s)
  | .getAutocommit sid =>
    if s.version < 3 then (.err .notSupported, s)
    else match lookupA sid s.streams with
      | none => (.err .streamNotFound, s)
      | some _ => (.ok, s)

/-- The session built by `handle_initial_hello`: empty tables. -/
def initialSession (v : Nat) : Session :=
  { version := v, streams := [], sqls := [], cursors := [] }

/-- Sessions reachable from the initial session through `handle_request`
(a repeated hello only replaces `authenticated`, which is not modelled). -/
inductive Reachable (v : Nat) : Session → Prop where
  | init : Reachable v (initialSession v)
  | step {s : Session} (req : Request) :
      Reachable v s → Reachable v (handleRequest s req).2

/-- The session-table invariant: distinct keys in all three tables, the SQL
table bounded by `MAX_SQL_COUNT` and empty below protocol v2, every cursor
entry backed by a stream whose `cursor_id` points back at it, every stream
cursor registered in the cursor table, and the cursor table exactly as large
as the number of streams holding an open cursor. -/
structure SessionInv (s : Session) : Prop where
  streamsNodup : keysNodup s.streams
  sqlsNodup : keysNodup s.sqls
  cursorsNodup : keysNodup s.cursors
  sqlsLe : s.sqls.length ≤ MAX_SQL_COUNT
  sqlsVersion : s.version < 2 → s.sqls = []
  cursorStream : ∀ cid sid, (cid, sid) ∈ s.cursors →
    ∃ h, lookupA sid s.streams = some h ∧ h.cursorId = some cid
  streamCursor : ∀ sid h cid, (sid, h) ∈ s.streams → h.cursorId = some cid →
    lookupA cid s.cursors = some sid
  cursorCount : s.cursors.length = s.streams.countP fun p => p.2.cursorId.isSome

/-! ## Batch lowering lemmas -/

theorem make_batch_program_length (batch : List Query) :
    (make_batch_program batch).length = batch.length := by
  simp [make_batch_program, List.enum_length]

theorem make_batch_program_getElem (batch : List Query) (i : Nat) :
    (make_batch_program batch)[i]? = batch[i]?.map fun q =>
      { cond := if i > 0 then some (Cond.ok (i - 1)) else none, query := q } := by
  simp only [make_batch_program, List.getElem?_map, List.getElem?_enum]
  cases batch[i]? <;> rfl

/-- C2: the program built by `execute_batch_or_rollback` has zero steps for an
empty batch; otherwise it has `len(B) + 1` steps, step 0 carries no condition,
every middle step `i` carries `Ok(i-1)`, and the final step is the `ROLLBACK`
query guarded by `Not(Ok(len(B)-1))`. -/
theorem batch_or_rollback_shape (batch : List Query) :
    (batch = [] → batchOrRollbackSteps batch = []) ∧
    (batch ≠ [] →
      (batchOrRollbackSteps batch).length = batch.length + 1 ∧
      ((batchOrRollbackSteps batch)[0]?).map Step.cond = some none ∧
      (∀ i, 0 < i → i < batch.length →
        ((batchOrRollbackSteps batch)[i]?).map Step.cond =
          some (some (Cond.ok (i - 1)))) ∧
      (batchOrRollbackSteps batch)[batch.length]? =
        some { query := rollbackQuery,
               cond := some (Cond.not (Cond.ok (batch.length - 1))) }) := by
  constructor
  · rintro rfl; rfl
  · intro hne
    have hlen : (make_batch_program batch).length = batch.length :=
      make_batch_program_length batch
    have hpos : 0 < batch.length := List.length_pos.mpr hne
    have hempty : (make_batch_program batch).isEmpty = false :=
      List.isEmpty_eq_false.mpr (List.length_pos.mp (by rw [hlen]; exact hpos))
    have hsteps : batchOrRollbackSteps batch =
        make_batch_program batch ++
          [{ query := rollbackQuery,
             cond := some (Cond.not (Cond.ok (batch.length - 1))) }] := by
      unfold batchOrRollbackSteps
      simp only [hempty, Bool.false_eq_true, if_false, hlen]
    refine ⟨?_, ?_, ?_, ?_⟩
    · rw [hsteps]
      simp [hlen]
    · rw [hsteps, List.getElem?_append, if_pos (by omega), make_batch_program_getElem,
         List.getElem?_eq_getElem hpos]
      simp
    · intro i h0 hi
      rw [hsteps, List.getElem?_append, if_pos (by omega), make_batch_program_getElem,
         List.getElem?_eq_getElem hi]
      simp [h0]
    · rw [hsteps, List.getElem?_append, if_neg (by omega)]
      simp [hlen]

theorem batch_or_rollback_shape_witness :
    ([{ stmt := "INSERT INTO t VALUES (1)", params := [], wantRows := false },
      { stmt := "INSERT INTO t VALUES (2)", params := [], wantRows := false }] ≠
        ([] : List Query)) ∧
    (batchOrRollbackSteps
      [{ stmt := "INSERT INTO t VALUES (1)", params := [], wantRows := false },
       { stmt := "INSERT INTO t VALUES (2)", params := [], wantRows := false }]).length = 3 ∧
    ((batchOrRollbackSteps
      [{ stmt := "INSERT INTO t VALUES (1)", params := [], wantRows := false },
       { stmt := "INSERT INTO t VALUES (2)", params := [], wantRows := false }])[1]?).map
        Step.cond = some (some (Cond.ok 0)) := by
  have h := (batch_or_rollback_shape
    [{ stmt := "INSERT INTO t VALUES (1)", params := [], wantRows := false },
     { stmt := "INSERT INTO t VALUES (2)", params := [], wantRows := false }]).2
    (by decide)
  exact ⟨by decide, h.1, h.2.2.1 1 (by decide) (by decide)⟩

/-! ## Throttler theorems -/

/-- C1 counterexample: with `M = 1_000_000`, the gauge at `300_000` for the
first sample and `600_000` for the re-sample, `create` holds `4 + 16 = 20`
units — not the `16` the claim predicts — because the re-sample acquires the
full new unit cost rather than the difference. -/
theorem create_units_counterexample :
    units_to_take 300000 1000000 = 4 ∧
    units_to_take 600000 1000000 = 16 ∧
    (createAcquiredUnits 300000 600000 1000000 ⟨100⟩).map Prod.fst = some 20 ∧
    ¬ (createAcquiredUnits 300000 600000 1000000 ⟨100⟩).map Prod.fst = some 16 := by
  decide

/-- C1 (amended): after the first acquisition the throttler re-samples, and
whenever the re-sampled unit cost exceeds 1 it acquires that full cost again
and merges it into the held permit, so the total held is the sum of the two
sampled costs (`4 + 16 = 20` in the scenario); units are conserved against
the semaphore. -/
theorem create_units_amended (r1 r2 maxTotal : Nat) (s : SemState)
    (units : Nat) (sFinal : SemState)
    (h : createAcquiredUnits r1 r2 maxTotal s = some (units, sFinal)) :
    (1 < units_to_take r2 maxTotal →
      units = units_to_take r1 maxTotal + units_to_take r2 maxTotal) ∧
    (units_to_take r2 maxTotal ≤ 1 → units = units_to_take r1 maxTotal) ∧
    s.available = sFinal.available + units := by
  unfold createAcquiredUnits acquireMany at h
  by_cases h1 : units_to_take r1 maxTotal ≤ s.available
  · rw [if_pos h1] at h
    dsimp only at h
    by_cases h2 : 1 < units_to_take r2 maxTotal
    · rw [if_pos h2] at h
      by_cases h3 : units_to_take r2 maxTotal ≤ s.available - units_to_take r1 maxTotal
      · rw [if_pos h3] at h
        dsimp only at h
        injection h with h
        injection h with hu hs
        subst hu hs
        refine ⟨fun _ => rfl, fun hle => by omega, by simp; omega⟩
      · rw [if_neg h3] at h
        exact absurd h (by simp)
    · rw [if_neg h2] at h
      injection h with h
      injection h with hu hs
      subst hu hs
      exact ⟨fun hc => absurd hc h2, fun _ => rfl, by simp; omega⟩
  · rw [if_neg h1] at h
    exact absurd h (by simp)

theorem create_units_amended_witness :
    (1 < units_to_take 600000 1000000 →
      20 = units_to_take 300000 1000000 + units_to_take 600000 1000000) ∧
    (units_to_take 600000 1000000 ≤ 1 → 20 = units_to_take 300000 1000000) ∧
    (⟨100⟩ : SemState).available = (⟨80⟩ : SemState).available + 20 :=
  create_units_amended 300000 600000 1000000 ⟨100⟩ 20 ⟨80⟩ (by decide)

/-- C3 counterexample: with `N = 1`, the permit held and 130 `create()`
arrivals, the waiters counter admits 127 calls to pend on the semaphore and
rejects 3 with `TooManyRequests` — not 1 pending and 129 rejected: the
counter counts every in-flight `create()`, including those pending on the
semaphore acquisition. -/
theorem waiter_cap_counterexample :
    admitCalls 130 = { pending := 127, failed := 3 } ∧
    ¬ ((admitCalls 130).pending = 1 ∧ (admitCalls 130).failed = 129) := by
  decide

/-- C3 (amended): every `create()` call increments the wait counter first and
is rejected with `TooManyRequests` — without touching the semaphore — when
the incremented counter reads at least 128, decrementing again on return;
consequently, with `N = 1` and the single permit held, 130 `create()`
arrivals leave exactly 127 pending on the acquisition and reject the
remaining 3. -/
theorem waiter_cap_amended :
    (∀ r1 r2 maxTotal f w0, 128 ≤ w0 + 1 →
      createRun r1 r2 maxTotal f w0 = (.tooManyRequests, w0 + 1, w0)) ∧
    (∀ sc : ThrottleScenario, 128 ≤ sc.pending + 1 →
      admitOne sc = { sc with failed := sc.failed + 1 }) ∧
    (∀ sc : ThrottleScenario, sc.pending + 1 < 128 →
      admitOne sc = { sc with pending := sc.pending + 1 }) ∧
    admitCalls 130 = { pending := 127, failed := 3 } := by
  refine ⟨?_, ?_, ?_, by decide⟩
  · intro r1 r2 maxTotal f w0 hw
    unfold createRun
    rw [if_pos hw]
    simp
  · intro sc hsc
    unfold admitOne
    rw [if_pos hsc]
  · intro sc hsc
    unfold admitOne
    rw [if_neg (by omega)]

theorem waiter_cap_amended_witness :
    createRun 0 0 1000000 ⟨false, false, false⟩ 130 = (.tooManyRequests, 131, 130) ∧
    admitOne ⟨127, 0⟩ = ⟨127, 1⟩ ∧
    admitOne ⟨5, 0⟩ = ⟨6, 0⟩ ∧
    admitCalls 130 = { pending := 127, failed := 3 } := by
  obtain ⟨h1, h2, h3, h4⟩ := waiter_cap_amended
  exact ⟨h1 0 0 1000000 ⟨false, false, false⟩ 130 (by omega),
         h2 ⟨127, 0⟩ (by decide), h3 ⟨5, 0⟩ (by decide), h4⟩

/-- C10: every `create()` invocation increments the waiters counter exactly
once on entry (the in-flight read is `w0 + 1`) and decrements it exactly once
on every exit path — rejection, either acquisition timeout, factory error, or
success — so the counter returns to its prior value after the call. -/
theorem create_waiters_balanced (r1 r2 maxTotal : Nat) (f : CreateFaults) (w0 : Nat) :
    (createRun r1 r2 maxTotal f w0).2.1 = w0 + 1 ∧
    (createRun r1 r2 maxTotal f w0).2.2 = w0 := by
  obtain ⟨f1, f2, f3⟩ := f
  unfold createRun
  dsimp only
  cases f1 <;> cases f2 <;> cases f3 <;> split_ifs <;> simp

/-! ## FetchCursor drain lemmas -/

theorem sizeSum_nil : sizeSum [] = 0 := rfl

theorem sizeSum_cons (e : SizedEntry) (l : List SizedEntry) :
    sizeSum (e :: l) = e.size + sizeSum l := by
  simp [sizeSum]

theorem sizeSum_append (l1 l2 : List SizedEntry) :
    sizeSum (l1 ++ l2) = sizeSum l1 + sizeSum l2 := by
  simp [sizeSum]

theorem fetchDrain_length (maxCount maxTotalSize : Nat) (producer : List SizedEntry) :
    ∀ count total,
      (fetchDrain maxCount maxTotalSize producer count total).1.length ≤
        maxCount - count := by
  induction producer with
  | nil =>
    intro count total
    simp only [fetchDrain]
    split <;> simp
  | cons e rest ih =>
    intro count total
    simp only [fetchDrain]
    split
    · rename_i hc
      have := ih (count + 1) (total + e.size)
      simp only [List.length_cons]
      omega
    · simp

theorem fetchDrain_total (maxCount maxTotalSize : Nat) (producer : List SizedEntry) :
    ∀ count total,
      (fetchDrain maxCount maxTotalSize producer count total).2.1 =
        total + sizeSum (fetchDrain maxCount maxTotalSize producer count total).1 := by
  induction producer with
  | nil =>
    intro count total
    simp only [fetchDrain]
    split <;> simp [sizeSum]
  | cons e rest ih =>
    intro count total
    simp only [fetchDrain]
    split
    · rw [sizeSum_cons, ih (count + 1) (total + e.size)]
      omega
    · simp [sizeSum]

theorem fetchDrain_prefix (maxCount maxTotalSize : Nat) (producer : List SizedEntry) :
    ∀ count total,
      (fetchDrain maxCount maxTotalSize producer count total).1 =
        producer.take (fetchDrain maxCount maxTotalSize producer count total).1.length := by
  induction producer with
  | nil =>
    intro count total
    simp only [fetchDrain]
    split <;> simp
  | cons e rest ih =>
    intro count total
    simp only [fetchDrain]
    split
    · simp only [List.length_cons, List.take_succ_cons, List.cons.injEq, true_and]
      exact ih (count + 1) (total + e.size)
    · simp

theorem fetchDrain_getElem (maxCount maxTotalSize : Nat) (producer : List SizedEntry) :
    ∀ count total i,
      ((fetchDrain maxCount maxTotalSize producer count total).1)[i]? =
        if count + i < maxCount ∧ total + sizeSum (producer.take i) < maxTotalSize
        then producer[i]? else none := by
  induction producer with
  | nil =>
    intro count total i
    simp only [fetchDrain]
    split <;> simp
  | cons e rest ih =>
    intro count total i
    simp only [fetchDrain]
    by_cases hc : count < maxCount ∧ total < maxTotalSize
    · rw [if_pos hc]
      cases i with
      | zero =>
        have hcond : count + 0 < maxCount ∧
            total + sizeSum ((e :: rest).take 0) < maxTotalSize := by
          simp only [List.take_zero, sizeSum_nil]
          omega
        rw [if_pos hcond]
        simp
      | succ j =>
        simp only [List.getElem?_cons_succ]
        rw [ih (count + 1) (total + e.size) j]
        have hiff : (count + 1 + j < maxCount ∧
            total + e.size + sizeSum (rest.take j) < maxTotalSize) ↔
            (count + (j + 1) < maxCount ∧
             total + sizeSum ((e :: rest).take (j + 1)) < maxTotalSize) := by
          rw [List.take_succ_cons, sizeSum_cons]
          omega
        exact if_congr hiff rfl rfl
    · rw [if_neg hc, if_neg (by
        rintro ⟨h1, h2⟩
        exact hc ⟨by omega, by omega⟩)]
      simp

theorem fetchDrain_done (maxCount maxTotalSize : Nat) (producer : List SizedEntry) :
    ∀ count total,
      ((fetchDrain maxCount maxTotalSize producer count total).2.2 = true ↔
        ((fetchDrain maxCount maxTotalSize producer count total).1 = producer ∧
         count + producer.length < maxCount ∧
         total + sizeSum producer < maxTotalSize)) := by
  induction producer with
  | nil =>
    intro count total
    simp only [fetchDrain]
    split <;> rename_i hc <;> simp [sizeSum] <;> omega
  | cons e rest ih =>
    intro count total
    simp only [fetchDrain]
    by_cases hc : count < maxCount ∧ total < maxTotalSize
    · rw [if_pos hc]
      have := ih (count + 1) (total + e.size)
      simp only at this ⊢
      rw [this]
      simp only [List.cons.injEq, true_and, List.length_cons, sizeSum_cons]
      constructor
      · rintro ⟨h1, h2, h3⟩
        exact ⟨h1, by omega, by omega⟩
      · rintro ⟨h1, h2, h3⟩
        exact ⟨h1, by omega, by omega⟩
    · rw [if_neg hc]
      simp

theorem fetchCursorResp_getElem (maxCount maxResponseSize : Nat)
    (producer : List SizedEntry) (i : Nat) :
    ((fetchCursorResp maxCount maxResponseSize producer).1)[i]? =
      if i < maxCount ∧ sizeSum (producer.take i) < maxResponseSize / 8
      then producer[i]? else none := by
  have h := fetchDrain_getElem maxCount (maxResponseSize / 8) producer 0 0 i
  simpa [fetchCursorResp] using h

/-- Every proper prefix of the reply was, at the time its successor was
fetched, still strictly below the byte budget. -/
theorem fetchCursorResp_front_lt (maxCount maxResponseSize : Nat)
    (producer : List SizedEntry) (front : List SizedEntry) (last : SizedEntry)
    (hfl : (fetchCursorResp maxCount maxResponseSize producer).1 = front ++ [last]) :
    sizeSum front < maxResponseSize / 8 := by
  have hget : ((fetchCursorResp maxCount maxResponseSize producer).1)[front.length]? =
      some last := by
    rw [hfl]
    exact List.getElem?_concat_length front last
  rw [fetchCursorResp_getElem] at hget
  by_cases hcond : front.length < maxCount ∧
      sizeSum (producer.take front.length) < maxResponseSize / 8
  · have hfront : front = producer.take front.length := by
      have h2 : (fetchCursorResp maxCount maxResponseSize producer).1 =
          producer.take (fetchCursorResp maxCount maxResponseSize producer).1.length :=
        fetchDrain_prefix maxCount (maxResponseSize / 8) producer 0 0
      have hlen : (fetchCursorResp maxCount maxResponseSize producer).1.length =
          front.length + 1 := by
        rw [hfl]
        simp
      rw [hlen] at h2
      calc front
          = ((fetchCursorResp maxCount maxResponseSize producer).1).take front.length := by
            rw [hfl, List.take_left]
        _ = (producer.take (front.length + 1)).take front.length := by rw [h2]
        _ = producer.take front.length := by
            rw [List.take_take, Nat.min_eq_left (by omega)]
    rw [hfront]
    exact hcond.2
  · rw [if_neg hcond] at hget
    exact absurd hget (by simp)

/-- C4 counterexample: with `max_response_size = 80` (byte budget `80/8 = 10`)
and a pending entry of size 100, the `FetchCursor` reply includes that entry,
so its accumulated byte size is 100 and does not stay within the budget. -/
theorem fetch_cursor_budget_counterexample :
    (fetchCursorResp 2 80 [⟨0, 100⟩]).1 = [⟨0, 100⟩] ∧
    sizeSum (fetchCursorResp 2 80 [⟨0, 100⟩]).1 = 100 ∧
    ¬ sizeSum (fetchCursorResp 2 80 [⟨0, 100⟩]).1 ≤ 80 / 8 := by
  decide

/-- C4 (amended): a `FetchCursor` reply contains at most `max_count` entries;
entries are fetched only while the accumulated size so far is strictly below
the `max_response_size / 8` budget, so the reply's total size exceeds the
budget by at most the final entry's size; and `done` is true exactly when the
drain exhausted the producer while both limits still had room. -/
theorem fetch_cursor_reply_bounds (maxCount maxResponseSize : Nat)
    (producer : List SizedEntry) :
    (fetchCursorResp maxCount maxResponseSize producer).1.length ≤ maxCount ∧
    (fetchCursorResp maxCount maxResponseSize producer).2.1 =
      sizeSum (fetchCursorResp maxCount maxResponseSize producer).1 ∧
    (∀ front last,
      (fetchCursorResp maxCount maxResponseSize producer).1 = front ++ [last] →
      sizeSum front < maxResponseSize / 8) ∧
    ((fetchCursorResp maxCount maxResponseSize producer).2.2 = true ↔
      ((fetchCursorResp maxCount maxResponseSize producer).1 = producer ∧
       producer.length < maxCount ∧ sizeSum producer < maxResponseSize / 8)) := by
  refine ⟨?_, ?_, ?_, ?_⟩
  · have h := fetchDrain_length maxCount (maxResponseSize / 8) producer 0 0
    simpa [fetchCursorResp] using Nat.le_trans h (Nat.sub_le _ _)
  · have h := fetchDrain_total maxCount (maxResponseSize / 8) producer 0 0
    simpa [fetchCursorResp] using h
  · exact fun front last hfl => fetchCursorResp_front_lt _ _ _ _ _ hfl
  · have h := fetchDrain_done maxCount (maxResponseSize / 8) producer 0 0
    simpa [fetchCursorResp] using h

theorem fetch_cursor_reply_bounds_witness :
    (fetchCursorResp 3 80 [⟨0, 3⟩, ⟨1, 4⟩, ⟨2, 5⟩]).1.length ≤ 3 ∧
    sizeSum [⟨0, 3⟩, ⟨1, 4⟩] < 80 / 8 ∧
    ((fetchCursorResp 3 80 [⟨0, 3⟩, ⟨1, 4⟩, ⟨2, 5⟩]).2.2 = true ↔
      ((fetchCursorResp 3 80 [⟨0, 3⟩, ⟨1, 4⟩, ⟨2, 5⟩]).1 = [⟨0, 3⟩, ⟨1, 4⟩, ⟨2, 5⟩] ∧
       ([⟨0, 3⟩, ⟨1, 4⟩, ⟨2, 5⟩] : List SizedEntry).length < 3 ∧
       sizeSum [⟨0, 3⟩, ⟨1, 4⟩, ⟨2, 5⟩] < 80 / 8)) := by
  obtain ⟨h1, h2, h3, h4⟩ := fetch_cursor_reply_bounds 3 80 [⟨0, 3⟩, ⟨1, 4⟩, ⟨2, 5⟩]
  exact ⟨h1, h3 [⟨0, 3⟩, ⟨1, 4⟩] ⟨2, 5⟩ (by decide), h4⟩

/-- C9: an entry at index `i` of the producer is included exactly when `i` is
below `max_count` and the accumulated size of the entries before it is
strictly below the `max_response_size / 8` budget; hence with a positive
count limit and byte budget, a pending first entry is always included even if
its own size exceeds the budget, and the reply's total size exceeds the
budget by less than the final included entry's size. -/
theorem fetch_cursor_inclusion (maxCount maxResponseSize : Nat)
    (producer : List SizedEntry) :
    (∀ i, ((fetchCursorResp maxCount maxResponseSize producer).1)[i]? =
      if i < maxCount ∧ sizeSum (producer.take i) < maxResponseSize / 8
      then producer[i]? else none) ∧
    (1 ≤ maxCount → 0 < maxResponseSize / 8 → producer ≠ [] →
      ((fetchCursorResp maxCount maxResponseSize producer).1)[0]? = producer[0]? ∧
      (fetchCursorResp maxCount maxResponseSize producer).1 ≠ []) ∧
    (∀ front last,
      (fetchCursorResp maxCount maxResponseSize producer).1 = front ++ [last] →
      (fetchCursorResp maxCount maxResponseSize producer).2.1 <
        maxResponseSize / 8 + last.size) := by
  refine ⟨fetchCursorResp_getElem maxCount maxResponseSize producer, ?_, ?_⟩
  · intro hmc hbudget hne
    have h0 : ((fetchCursorResp maxCount maxResponseSize producer).1)[0]? =
        producer[0]? := by
      rw [fetchCursorResp_getElem]
      rw [if_pos ⟨by omega, by simpa [sizeSum] using hbudget⟩]
    refine ⟨h0, ?_⟩
    intro hnil
    rw [hnil] at h0
    obtain ⟨e, rest, rfl⟩ := List.exists_cons_of_ne_nil hne
    simp at h0
  · intro front last hfl
    have htot := fetchDrain_total maxCount (maxResponseSize / 8) producer 0 0
    have hfront := fetchCursorResp_front_lt maxCount maxResponseSize producer
      front last hfl
    have : (fetchCursorResp maxCount maxResponseSize producer).2.1 =
        sizeSum front + last.size := by
      show (fetchDrain maxCount (maxResponseSize / 8) producer 0 0).2.1 = _
      rw [htot]
      have : (fetchDrain maxCount (maxResponseSize / 8) producer 0 0).1 =
          front ++ [last] := hfl
      rw [this, sizeSum_append, sizeSum_cons, sizeSum_nil]
      omega
    omega

theorem fetch_cursor_inclusion_witness :
    (fetchCursorResp 2 80 [⟨7, 100⟩]).1[0]? = some ⟨7, 100⟩ ∧
    (fetchCursorResp 2 80 [⟨7, 100⟩]).1 ≠ [] ∧
    (fetchCursorResp 2 80 [⟨7, 100⟩]).2.1 < 80 / 8 + 100 := by
  obtain ⟨h1, h2, h3⟩ := fetch_cursor_inclusion 2 80 [⟨7, 100⟩]
  obtain ⟨h4, h5⟩ := h2 (by decide) (by decide) (by decide)
  exact ⟨h4, h5, h3 [] ⟨7, 100⟩ (by decide)⟩

/-! ## Config store theorems -/

/-- C5: `store` writes the serialized config to the staging file
`config.json~`, renames it over `config.json`, and only then swaps the
in-memory snapshot; on a write or rename failure the error is returned,
`get()` still sees the prior snapshot, and `config.json` is untouched. -/
theorem store_failure_preserves_snapshot (f : IoFaults) (st : ConfigStoreState)
    (c : DatabaseConfig) :
    (∀ e, (storeRun f st c).1 = .error e →
      getConfig (storeRun f st c).2 = getConfig st ∧
      (storeRun f st c).2.dir.configJson = st.dir.configJson) ∧
    ((storeRun f st c).1 = .ok () →
      getConfig (storeRun f st c).2 = c ∧
      (storeRun f st c).2.dir.configJson = some (serializeConfig c) ∧
      (storeRun f st c).2.dir.tmpConfigJson = none) ∧
    (f.writeFails = false → f.renameFails = true →
      (storeRun f st c).1 = .error .ioError ∧
      (storeRun f st c).2.dir.tmpConfigJson = some (serializeConfig c) ∧
      (storeRun f st c).2.dir.configJson = st.dir.configJson) := by
  obtain ⟨fw, fr⟩ := f
  cases fw <;> cases fr <;> simp [storeRun, getConfig]

theorem store_failure_preserves_snapshot_witness :
    getConfig (storeRun ⟨false, true⟩ ⟨⟨none, none⟩, defaultConfig⟩
      ⟨true, true, some "maintenance"⟩).2 = getConfig ⟨⟨none, none⟩, defaultConfig⟩ ∧
    (storeRun ⟨false, true⟩ ⟨⟨none, none⟩, defaultConfig⟩
      ⟨true, true, some "maintenance"⟩).1 = .error .ioError := by
  obtain ⟨h1, h2, h3⟩ := store_failure_preserves_snapshot ⟨false, true⟩
    ⟨⟨none, none⟩, defaultConfig⟩ ⟨true, true, some "maintenance"⟩
  exact ⟨(h1 .ioError (by rfl)).1, (h3 rfl rfl).1⟩

/-- C8: storing a config and then constructing a fresh store over the same
directory loads a snapshot equal to the stored config: serialization followed
by deserialization round-trips every `DatabaseConfig`. -/
theorem config_round_trip (st : ConfigStoreState) (c : DatabaseConfig) :
    loadStore ((storeRun ⟨false, false⟩ st c).2.dir) =
      .ok { dir := (storeRun ⟨false, false⟩ st c).2.dir, snapshot := c } := by
  obtain ⟨br, bw, reason⟩ := c
  cases reason <;> rfl


/-! ## Association-list lemmas -/

theorem lookupA_cons {α : Type} (k k' : Int) (v' : α) (rest : List (Int × α)) :
    lookupA k ((k', v') :: rest) = if k' = k then some v' else lookupA k rest := rfl

theorem removeA_cons_ne {α : Type} {k k' : Int} (h : k' ≠ k) (v' : α)
    (rest : List (Int × α)) :
    removeA k ((k', v') :: rest) = (k', v') :: removeA k rest := by
  simp [removeA, List.filter_cons, h]

theorem removeA_cons_eq {α : Type} (k : Int) (v' : α) (rest : List (Int × α)) :
    removeA k ((k, v') :: rest) = removeA k rest := by
  simp [removeA, List.filter_cons]

theorem updateA_cons {α : Type} (k : Int) (v : α) (k' : Int) (v' : α)
    (rest : List (Int × α)) :
    updateA k v ((k', v') :: rest) =
      (if k' = k then (k, v) else (k', v')) :: updateA k v rest := rfl

theorem lookupA_mem {α : Type} {k : Int} {v : α} : ∀ {m : List (Int × α)},
    lookupA k m = some v → (k, v) ∈ m := by
  intro m
  induction m with
  | nil => intro h; simp [lookupA] at h
  | cons p rest ih =>
    obtain ⟨k', v'⟩ := p
    intro h
    rw [lookupA_cons] at h
    by_cases hk : k' = k
    · rw [if_pos hk] at h
      injection h with h
      subst hk h
      exact List.mem_cons_self _ _
    · rw [if_neg hk] at h
      exact List.mem_cons_of_mem _ (ih h)

theorem lookupA_mem_keys {α : Type} {k : Int} {v : α} {m : List (Int × α)}
    (h : lookupA k m = some v) : k ∈ m.map Prod.fst :=
  List.mem_map.mpr ⟨(k, v), lookupA_mem h, rfl⟩

theorem lookupA_eq_none_of_not_mem {α : Type} {k : Int} : ∀ {m : List (Int × α)},
    k ∉ m.map Prod.fst → lookupA k m = none := by
  intro m
  induction m with
  | nil => intro _; rfl
  | cons p rest ih =>
    obtain ⟨k', v'⟩ := p
    intro h
    simp only [List.map_cons, List.mem_cons] at h
    push_neg at h
    rw [lookupA_cons, if_neg (fun he => h.1 he.symm)]
    exact ih h.2

theorem lookupA_of_mem {α : Type} {k : Int} {v : α} : ∀ {m : List (Int × α)},
    keysNodup m → (k, v) ∈ m → lookupA k m = some v := by
  intro m
  induction m with
  | nil => intro _ h; simp at h
  | cons p rest ih =>
    obtain ⟨k', v'⟩ := p
    intro hnd h
    simp only [keysNodup, List.map_cons, List.nodup_cons] at hnd
    rcases List.mem_cons.mp h with he | hm
    · injection he with he1 he2
      subst he1 he2
      rw [lookupA_cons, if_pos rfl]
    · have hk : k' ≠ k := by
        intro he
        exact hnd.1 (he ▸ List.mem_map.mpr ⟨(k, v), hm, rfl⟩)
      rw [lookupA_cons, if_neg hk]
      exact ih hnd.2 hm

theorem mem_removeA {α : Type} {k k' : Int} {v : α} {m : List (Int × α)} :
    (k', v) ∈ removeA k m ↔ (k', v) ∈ m ∧ k' ≠ k := by
  simp [removeA, List.mem_filter]

theorem keys_removeA_subset {α : Type} {x k : Int} {m : List (Int × α)}
    (h : x ∈ (removeA k m).map Prod.fst) : x ∈ m.map Prod.fst := by
  obtain ⟨⟨k1, v1⟩, hm, rfl⟩ := List.mem_map.mp h
  exact List.mem_map.mpr ⟨(k1, v1), (mem_removeA.mp hm).1, rfl⟩

theorem keysNodup_removeA {α : Type} (k : Int) : ∀ {m : List (Int × α)},
    keysNodup m → keysNodup (removeA k m) := by
  intro m
  induction m with
  | nil => intro _; exact List.nodup_nil
  | cons p rest ih =>
    obtain ⟨k', v'⟩ := p
    intro hnd
    simp only [keysNodup, List.map_cons, List.nodup_cons] at hnd
    by_cases hk : k' = k
    · subst hk
      rw [removeA_cons_eq]
      exact ih hnd.2
    · rw [removeA_cons_ne hk]
      simp only [keysNodup, List.map_cons, List.nodup_cons]
      exact ⟨fun hx => hnd.1 (keys_removeA_subset hx), ih hnd.2⟩

theorem removeA_eq_self_of_not_mem {α : Type} {k : Int} : ∀ {m : List (Int × α)},
    k ∉ m.map Prod.fst → removeA k m = m := by
  intro m
  induction m with
  | nil => intro _; rfl
  | cons p rest ih =>
    obtain ⟨k', v'⟩ := p
    intro h
    simp only [List.map_cons, List.mem_cons] at h
    push_neg at h
    rw [removeA_cons_ne (fun he => h.1 he.symm), ih h.2]

theorem lookupA_removeA_ne {α : Type} {k k' : Int} (hne : k' ≠ k) :
    ∀ (m : List (Int × α)), lookupA k' (removeA k m) = lookupA k' m := by
  intro m
  induction m with
  | nil => rfl
  | cons p rest ih =>
    obtain ⟨k0, v0⟩ := p
    by_cases hk : k0 = k
    · subst hk
      rw [removeA_cons_eq, ih, lookupA_cons, if_neg (fun he => hne he.symm)]
    · rw [removeA_cons_ne hk, lookupA_cons, lookupA_cons]
      by_cases hk0 : k0 = k'
      · rw [if_pos hk0, if_pos hk0]
      · rw [if_neg hk0, if_neg hk0, ih]

theorem lookupA_removeA_self {α : Type} (k : Int) : ∀ (m : List (Int × α)),
    lookupA k (removeA k m) = none := by
  intro m
  induction m with
  | nil => rfl
  | cons p rest ih =>
    obtain ⟨k0, v0⟩ := p
    by_cases hk : k0 = k
    · subst hk
      rw [removeA_cons_eq, ih]
    · rw [removeA_cons_ne hk, lookupA_cons, if_neg hk, ih]

theorem length_removeA {α : Type} {k : Int} {v : α} : ∀ {m : List (Int × α)},
    keysNodup m → lookupA k m = some v →
    m.length = (removeA k m).length + 1 := by
  intro m
  induction m with
  | nil => intro _ h; simp [lookupA] at h
  | cons p rest ih =>
    obtain ⟨k', v'⟩ := p
    intro hnd h
    simp only [keysNodup, List.map_cons, List.nodup_cons] at hnd
    rw [lookupA_cons] at h
    by_cases hk : k' = k
    · subst hk
      rw [removeA_cons_eq, removeA_eq_self_of_not_mem hnd.1]
      simp
    · rw [if_neg hk] at h
      rw [removeA_cons_ne hk]
      simp only [List.length_cons]
      rw [ih hnd.2 h]

theorem length_removeA_le {α : Type} (k : Int) (m : List (Int × α)) :
    (removeA k m).length ≤ m.length :=
  List.length_filter_le _ m

theorem countP_removeA {α : Type} (q : Int × α → Bool) {k : Int} {v : α} :
    ∀ {m : List (Int × α)}, keysNodup m → lookupA k m = some v →
    m.countP q = (removeA k m).countP q + (if q (k, v) then 1 else 0) := by
  intro m
  induction m with
  | nil => intro _ h; simp [lookupA] at h
  | cons p rest ih =>
    obtain ⟨k', v'⟩ := p
    intro hnd h
    simp only [keysNodup, List.map_cons, List.nodup_cons] at hnd
    rw [lookupA_cons] at h
    by_cases hk : k' = k
    · rw [if_pos hk] at h
      injection h with h
      subst hk h
      rw [removeA_cons_eq, removeA_eq_self_of_not_mem hnd.1, List.countP_cons]
    · rw [if_neg hk] at h
      rw [removeA_cons_ne hk, List.countP_cons, List.countP_cons, ih hnd.2 h]
      omega

theorem keys_updateA {α : Type} (k : Int) (v : α) : ∀ (m : List (Int × α)),
    (updateA k v m).map Prod.fst = m.map Prod.fst := by
  intro m
  induction m with
  | nil => rfl
  | cons p rest ih =>
    obtain ⟨k', v'⟩ := p
    rw [updateA_cons]
    by_cases hk : k' = k
    · subst hk
      rw [if_pos rfl]
      simp only [List.map_cons, ih]
    · rw [if_neg hk]
      simp only [List.map_cons, ih]

theorem keysNodup_updateA {α : Type} {k : Int} {v : α} {m : List (Int × α)}
    (hnd : keysNodup m) : keysNodup (updateA k v m) := by
  rw [keysNodup, keys_updateA]
  exact hnd

theorem updateA_eq_self_of_not_mem {α : Type} {k : Int} {v : α} :
    ∀ {m : List (Int × α)}, k ∉ m.map Prod.fst → updateA k v m = m := by
  intro m
  induction m with
  | nil => intro _; rfl
  | cons p rest ih =>
    obtain ⟨k', v'⟩ := p
    intro h
    simp only [List.map_cons, List.mem_cons] at h
    push_neg at h
    rw [updateA_cons, if_neg (fun he => h.1 he.symm), ih h.2]

theorem lookupA_updateA_self {α : Type} {k : Int} {v w : α} : ∀ {m : List (Int × α)},
    lookupA k m = some w → lookupA k (updateA k v m) = some v := by
  intro m
  induction m with
  | nil => intro h; simp [lookupA] at h
  | cons p rest ih =>
    obtain ⟨k', v'⟩ := p
    intro h
    rw [lookupA_cons] at h
    rw [updateA_cons]
    by_cases hk : k' = k
    · rw [if_pos hk, lookupA_cons, if_pos rfl]
    · rw [if_neg hk] at h
      rw [if_neg hk, lookupA_cons, if_neg hk]
      exact ih h

theorem lookupA_updateA_ne {α : Type} {k k' : Int} {v : α} (hne : k' ≠ k) :
    ∀ (m : List (Int × α)), lookupA k' (updateA k v m) = lookupA k' m := by
  intro m
  induction m with
  | nil => rfl
  | cons p rest ih =>
    obtain ⟨k0, v0⟩ := p
    rw [updateA_cons]
    by_cases hk : k0 = k
    · rw [if_pos hk, lookupA_cons, lookupA_cons,
         if_neg (fun he => hne he.symm), if_neg (fun he => hne (he.symm.trans hk))]
      exact ih
    · rw [if_neg hk, lookupA_cons, lookupA_cons]
      by_cases hk0 : k0 = k'
      · rw [if_pos hk0, if_pos hk0]
      · rw [if_neg hk0, if_neg hk0, ih]

theorem mem_updateA {α : Type} {k : Int} {v : α} {p : Int × α} :
    ∀ {m : List (Int × α)}, p ∈ updateA k v m →
    (p.1 ≠ k ∧ p ∈ m) ∨ (p = (k, v) ∧ ∃ w, (k, w) ∈ m) := by
  intro m
  induction m with
  | nil => intro h; simp [updateA] at h
  | cons q rest ih =>
    obtain ⟨k0, v0⟩ := q
    intro h
    rw [updateA_cons] at h
    rcases List.mem_cons.mp h with he | hm
    · by_cases hk : k0 = k
      · rw [if_pos hk] at he
        subst hk
        exact Or.inr ⟨he, v0, List.mem_cons_self _ _⟩
      · rw [if_neg hk] at he
        subst he
        exact Or.inl ⟨hk, List.mem_cons_self _ _⟩
    · rcases ih hm with ⟨h1, h2⟩ | ⟨h1, w, h2⟩
      · exact Or.inl ⟨h1, List.mem_cons_of_mem _ h2⟩
      · exact Or.inr ⟨h1, w, List.mem_cons_of_mem _ h2⟩

theorem countP_updateA_incr {α : Type} (q : Int × α → Bool) {k : Int} {v w : α} :
    ∀ {m : List (Int × α)}, keysNodup m → lookupA k m = some w →
    q (k, w) = false → q (k, v) = true →
    (updateA k v m).countP q = m.countP q + 1 := by
  intro m
  induction m with
  | nil => intro _ h; simp [lookupA] at h
  | cons p rest ih =>
    obtain ⟨k', v'⟩ := p
    intro hnd h hqw hqv
    simp only [keysNodup, List.map_cons, List.nodup_cons] at hnd
    rw [lookupA_cons] at h
    rw [updateA_cons]
    by_cases hk : k' = k
    · rw [if_pos hk] at h
      injection h with h
      subst hk h
      rw [if_pos rfl, updateA_eq_self_of_not_mem hnd.1,
         List.countP_cons, List.countP_cons, hqw, hqv]
      simp
    · rw [if_neg hk] at h
      rw [if_neg hk, List.countP_cons, List.countP_cons, ih hnd.2 h hqw hqv]
      omega

theorem countP_updateA_decr {α : Type} (q : Int × α → Bool) {k : Int} {v w : α} :
    ∀ {m : List (Int × α)}, keysNodup m → lookupA k m = some w →
    q (k, w) = true → q (k, v) = false →
    m.countP q = (updateA k v m).countP q + 1 := by
  intro m
  induction m with
  | nil => intro _ h; simp [lookupA] at h
  | cons p rest ih =>
    obtain ⟨k', v'⟩ := p
    intro hnd h hqw hqv
    simp only [keysNodup, List.map_cons, List.nodup_cons] at hnd
    rw [lookupA_cons] at h
    rw [updateA_cons]
    by_cases hk : k' = k
    · rw [if_pos hk] at h
      injection h with h
      subst hk h
      rw [if_pos rfl, updateA_eq_self_of_not_mem hnd.1,
         List.countP_cons, List.countP_cons, hqw, hqv]
      simp
    · rw [if_neg hk] at h
      rw [if_neg hk, List.countP_cons, List.countP_cons, ih hnd.2 h hqw hqv]
      omega

theorem lookupA_isSome_of_mem_keys {α : Type} {k : Int} : ∀ {m : List (Int × α)},
    k ∈ m.map Prod.fst → (lookupA k m).isSome = true := by
  intro m
  induction m with
  | nil => intro h; simp at h
  | cons p rest ih =>
    obtain ⟨k0, v0⟩ := p
    intro h
    rw [lookupA_cons]
    by_cases hk : k0 = k
    · rw [if_pos hk]; rfl
    · rw [if_neg hk]
      simp only [List.map_cons, List.mem_cons] at h
      rcases h with he | hm
      · exact absurd he.symm hk
      · exact ih hm

theorem not_mem_keys_of_lookupA_eq_none {α : Type} {k : Int} {m : List (Int × α)}
    (h : lookupA k m = none) : k ∉ m.map Prod.fst := by
  intro hm
  have hs := lookupA_isSome_of_mem_keys hm
  rw [h] at hs
  simp at hs

/-! ## Session invariant -/

theorem sessionInv_init (v : Nat) : SessionInv (initialSession v) where
  streamsNodup := List.nodup_nil
  sqlsNodup := List.nodup_nil
  cursorsNodup := List.nodup_nil
  sqlsLe := by simp [initialSession, MAX_SQL_COUNT]
  sqlsVersion := fun _ => rfl
  cursorStream := by intro cid sid h; simp [initialSession] at h
  streamCursor := by intro sid h cid hm; simp [initialSession] at hm
  cursorCount := rfl

/-- One `handle_request` step preserves the session invariant, and its
`assert_eq!` checks cannot fire. -/
theorem sessionInv_step (s : Session) (req : Request) (inv : SessionInv s) :
    SessionInv (handleRequest s req).2 ∧
    (handleRequest s req).1 ≠ .assertFailed := by
  cases req with
  | openStream sid =>
    simp only [handleRequest]
    cases hlk : lookupA sid s.streams with
    | some h =>
      simp only [Option.isSome_some, if_true]
      exact ⟨inv, by simp⟩
    | none =>
      simp only [Option.isSome_none, Bool.false_eq_true, if_false]
      have hnk : sid ∉ s.streams.map Prod.fst := not_mem_keys_of_lookupA_eq_none hlk
      refine ⟨⟨?_, inv.sqlsNodup, inv.cursorsNodup, inv.sqlsLe, inv.sqlsVersion,
        ?_, ?_, ?_⟩, by simp⟩
      · exact List.nodup_cons.mpr ⟨hnk, inv.streamsNodup⟩
      · intro cid sid' hm
        obtain ⟨h', hl', hc'⟩ := inv.cursorStream cid sid' hm
        have hne : sid ≠ sid' := by
          intro he
          rw [← he, hlk] at hl'
          cases hl'
        refine ⟨h', ?_, hc'⟩
        rw [lookupA_cons, if_neg hne]
        exact hl'
      · intro sid' h' cid hm hc
        rcases List.mem_cons.mp hm with he | hm'
        · injection he with he1 he2
          subst he2
          simp at hc
        · exact inv.streamCursor sid' h' cid hm' hc
      · simp only [List.countP_cons]
        simpa using inv.cursorCount
  | closeStream sid =>
    simp only [handleRequest]
    cases hlk : lookupA sid s.streams with
    | none => exact ⟨inv, by simp⟩
    | some h =>
      cases hcid : h.cursorId with
      | none =>
        simp only [hcid]
        refine ⟨⟨keysNodup_removeA sid inv.streamsNodup, inv.sqlsNodup, inv.cursorsNodup,
          inv.sqlsLe, inv.sqlsVersion, ?_, ?_, ?_⟩, by simp⟩
        · intro cid' sid' hm
          obtain ⟨h', hl', hc'⟩ := inv.cursorStream cid' sid' hm
          have hne : sid' ≠ sid := by
            intro he
            subst he
            rw [hlk] at hl'
            injection hl' with hl'
            subst hl'
            rw [hcid] at hc'
            cases hc'
          exact ⟨h', by rw [lookupA_removeA_ne hne]; exact hl', hc'⟩
        · intro sid' h' cid' hm hc
          exact inv.streamCursor sid' h' cid' (mem_removeA.mp hm).1 hc
        · have hq := countP_removeA (fun p : Int × StreamHandle => p.2.cursorId.isSome)
            inv.streamsNodup hlk
          simp only [hcid, Option.isSome_none, Bool.false_eq_true, if_false,
            Nat.add_zero] at hq
          dsimp only
          rw [inv.cursorCount, hq]
      | some cid =>
        simp only [hcid]
        have hcc : lookupA cid s.cursors = some sid :=
          inv.streamCursor sid h cid (lookupA_mem hlk) hcid
        refine ⟨⟨keysNodup_removeA sid inv.streamsNodup, inv.sqlsNodup,
          keysNodup_removeA cid inv.cursorsNodup,
          inv.sqlsLe, inv.sqlsVersion, ?_, ?_, ?_⟩, by simp⟩
        · intro cid' sid' hm
          obtain ⟨hm', hne⟩ := mem_removeA.mp hm
          obtain ⟨h', hl', hc'⟩ := inv.cursorStream cid' sid' hm'
          have hsne : sid' ≠ sid := by
            intro he
            subst he
            rw [hlk] at hl'
            injection hl' with hl'
            subst hl'
            rw [hcid] at hc'
            injection hc' with hc'
            exact hne hc'.symm
          exact ⟨h', by rw [lookupA_removeA_ne hsne]; exact hl', hc'⟩
        · intro sid' h' cid' hm hc
          obtain ⟨hm', hsne⟩ := mem_removeA.mp hm
          have hl' := inv.streamCursor sid' h' cid' hm' hc
          have hcne : cid' ≠ cid := by
            intro he
            subst he
            rw [hcc] at hl'
            injection hl' with hl'
            exact hsne hl'.symm
          rw [lookupA_removeA_ne hcne]
          exact hl'
        · have hq := countP_removeA (fun p : Int × StreamHandle => p.2.cursorId.isSome)
            inv.streamsNodup hlk
          simp only [hcid, Option.isSome_some, if_true] at hq
          have hlen := length_removeA inv.cursorsNodup hcc
          rw [inv.cursorCount] at hlen
          dsimp only
          omega
  | execute sid =>
    simp only [handleRequest]
    cases hlk : lookupA sid s.streams with
    | none => exact ⟨inv, by simp⟩
    | some h => exact ⟨inv, by simp⟩
  | batch sid =>
    simp only [handleRequest]
    cases hlk : lookupA sid s.streams with
    | none => exact ⟨inv, by simp⟩
    | some h => exact ⟨inv, by simp⟩
  | sequence sid =>
    simp only [handleRequest]
    by_cases hv : s.version < 2
    · rw [if_pos hv]
      exact ⟨inv, by simp⟩
    · rw [if_neg hv]
      cases hlk : lookupA sid s.streams with
      | none => exact ⟨inv, by simp⟩
      | some h => exact ⟨inv, by simp⟩
  | describe sid =>
    simp only [handleRequest]
    by_cases hv : s.version < 2
    · rw [if_pos hv]
      exact ⟨inv, by simp⟩
    · rw [if_neg hv]
      cases hlk : lookupA sid s.streams with
      | none => exact ⟨inv, by simp⟩
      | some h => exact ⟨inv, by simp⟩
  | storeSql sqlId sql =>
    simp only [handleRequest]
    by_cases hv : s.version < 2
    · rw [if_pos hv]
      exact ⟨inv, by simp⟩
    · rw [if_neg hv]
      cases hlq : lookupA sqlId s.sqls with
      | some w =>
        simp only [Option.isSome_some, if_true]
        exact ⟨inv, by simp⟩
      | none =>
        simp only [Option.isSome_none, Bool.false_eq_true, if_false]
        by_cases hlen : s.sqls.length ≥ MAX_SQL_COUNT
        · rw [if_pos hlen]
          exact ⟨inv, by simp⟩
        · rw [if_neg hlen]
          have hnq : sqlId ∉ s.sqls.map Prod.fst := not_mem_keys_of_lookupA_eq_none hlq
          refine ⟨⟨inv.streamsNodup, List.nodup_cons.mpr ⟨hnq, inv.sqlsNodup⟩,
            inv.cursorsNodup, by simp only [List.length_cons]; omega,
            fun hlt => absurd hlt hv,
            inv.cursorStream, inv.streamCursor, inv.cursorCount⟩, by simp⟩
  | closeSql sqlId =>
    simp only [handleRequest]
    by_cases hv : s.version < 2
    · rw [if_pos hv]
      exact ⟨inv, by simp⟩
    · rw [if_neg hv]
      exact ⟨⟨inv.streamsNodup, keysNodup_removeA _ inv.sqlsNodup, inv.cursorsNodup,
        Nat.le_trans (length_removeA_le _ _) inv.sqlsLe,
        fun hlt => absurd hlt hv,
        inv.cursorStream, inv.streamCursor, inv.cursorCount⟩, by simp⟩
  | openCursor cid sid compiles =>
    simp only [handleRequest]
    by_cases hv : s.version < 3
    · rw [if_pos hv]
      exact ⟨inv, by simp⟩
    · rw [if_neg hv]
      cases hlk : lookupA sid s.streams with
      | none => exact ⟨inv, by simp⟩
      | some h =>
        cases hcid : h.cursorId with
        | some c0 =>
          simp only [hcid, Option.isSome_some, if_true]
          exact ⟨inv, by simp⟩
        | none =>
          simp only [hcid, Option.isSome_none, Bool.false_eq_true, if_false]
          cases hcc : lookupA cid s.cursors with
          | some sid0 =>
            simp only [Option.isSome_some, if_true]
            exact ⟨inv, by simp⟩
          | none =>
            simp only [Option.isSome_none, Bool.false_eq_true, if_false]
            cases compiles with
            | false =>
              simp only [if_pos rfl]
              exact ⟨inv, by simp⟩
            | true =>
              simp only [Bool.true_eq_false, if_false]
              have hnc : cid ∉ s.cursors.map Prod.fst :=
                not_mem_keys_of_lookupA_eq_none hcc
              refine ⟨⟨keysNodup_updateA inv.streamsNodup, inv.sqlsNodup,
                List.nodup_cons.mpr ⟨hnc, inv.cursorsNodup⟩,
                inv.sqlsLe, inv.sqlsVersion, ?_, ?_, ?_⟩, by simp⟩
              · intro cid' sid' hm
                rcases List.mem_cons.mp hm with he | hm'
                · injection he with he1 he2
                  subst he1 he2
                  exact ⟨_, lookupA_updateA_self hlk, rfl⟩
                · obtain ⟨h', hl', hc'⟩ := inv.cursorStream cid' sid' hm'
                  have hne : sid' ≠ sid := by
                    intro he
                    subst he
                    rw [hlk] at hl'
                    injection hl' with hl'
                    subst hl'
                    rw [hcid] at hc'
                    cases hc'
                  exact ⟨h', by rw [lookupA_updateA_ne hne]; exact hl', hc'⟩
              · intro sid' h' cid' hm hc
                rcases mem_updateA hm with ⟨hne, hm'⟩ | ⟨he, w, hw⟩
                · have hl' := inv.streamCursor sid' h' cid' hm' hc
                  have hcne : cid ≠ cid' := by
                    intro he
                    subst he
                    rw [hcc] at hl'
                    cases hl'
                  rw [lookupA_cons, if_neg hcne]
                  exact hl'
                · injection he with he1 he2
                  subst he1 he2
                  simp only at hc
                  injection hc with hc
                  subst hc
                  rw [lookupA_cons, if_pos rfl]
              · simp only [List.length_cons, List.countP_cons]
                have hq := countP_updateA_incr
                  (fun p : Int × StreamHandle => p.2.cursorId.isSome)
                  (v := { cursorId := some cid }) inv.streamsNodup hlk
                  (by simp [hcid]) (by simp)
                rw [hq, inv.cursorCount]
  | closeCursor cid =>
    simp only [handleRequest]
    by_cases hv : s.version < 3
    · rw [if_pos hv]
      exact ⟨inv, by simp⟩
    · rw [if_neg hv]
      cases hcc : lookupA cid s.cursors with
      | none => exact ⟨inv, by simp⟩
      | some sid =>
        simp only []
        obtain ⟨h, hlk, hcid⟩ := inv.cursorStream cid sid (lookupA_mem hcc)
        rw [show lookupA sid ({ s with cursors := removeA cid s.cursors } : Session).streams
            = some h from hlk]
        dsimp only
        rw [if_pos hcid]
        refine ⟨⟨keysNodup_updateA inv.streamsNodup, inv.sqlsNodup,
          keysNodup_removeA cid inv.cursorsNodup,
          inv.sqlsLe, inv.sqlsVersion, ?_, ?_, ?_⟩, by simp⟩
        · intro cid' sid' hm
          obtain ⟨hm', hne⟩ := mem_removeA.mp hm
          obtain ⟨h', hl', hc'⟩ := inv.cursorStream cid' sid' hm'
          have hsne : sid' ≠ sid := by
            intro he
            subst he
            rw [hlk] at hl'
            injection hl' with hl'
            subst hl'
            rw [hcid] at hc'
            injection hc' with hc'
            exact hne hc'.symm
          exact ⟨h', by rw [lookupA_updateA_ne hsne]; exact hl', hc'⟩
        · intro sid' h' cid' hm hc
          rcases mem_updateA hm with ⟨hsne, hm'⟩ | ⟨he, w, hw⟩
          · have hl' := inv.streamCursor sid' h' cid' hm' hc
            have hcne : cid' ≠ cid := by
              intro he
              subst he
              rw [hcc] at hl'
              injection hl' with hl'
              exact hsne hl'.symm
            rw [lookupA_removeA_ne hcne]
            exact hl'
          · injection he with he1 he2
            subst he1 he2
            simp at hc
        · have hq := countP_updateA_decr
            (fun p : Int × StreamHandle => p.2.cursorId.isSome)
            (v := { cursorId := none }) inv.streamsNodup hlk
            (by simp [hcid]) (by simp)
          have hlen := length_removeA inv.cursorsNodup hcc
          rw [inv.cursorCount] at hlen
          dsimp only
          omega
  | fetchCursor cid =>
    simp only [handleRequest]
    by_cases hv : s.version < 3
    · rw [if_pos hv]
      exact ⟨inv, by simp⟩
    · rw [if_neg hv]
      cases hcc : lookupA cid s.cursors with
      | none => exact ⟨inv, by simp⟩
      | some sid =>
        simp only []
        obtain ⟨h, hlk, hcid⟩ := inv.cursorStream cid sid (lookupA_mem hcc)
        rw [hlk]
        dsimp only
        rw [if_pos hcid]
        exact ⟨inv, by simp⟩
  | getAutocommit sid =>
    simp only [handleRequest]
    by_cases hv : s.version < 3
    · rw [if_pos hv]
      exact ⟨inv, by simp⟩
    · rw [if_neg hv]
      cases hlk : lookupA sid s.streams with
      | none => exact ⟨inv, by simp⟩
      | some h => exact ⟨inv, by simp⟩

/-- Every reachable session satisfies the invariant. -/
theorem sessionInv_reachable {v : Nat} {s : Session} (h : Reachable v s) :
    SessionInv s := by
  induction h with
  | init => exact sessionInv_init v
  | step req _ ih => exact (sessionInv_step _ req ih).1

/-- No request other than `StoreSql` can leave the SQL table longer. -/
theorem handleRequest_sqls_le (s : Session) (req : Request)
    (hns : ∀ sqlId sql, req ≠ .storeSql sqlId sql) :
    ((handleRequest s req).2).sqls.length ≤ s.sqls.length := by
  cases req with
  | storeSql sqlId sql => exact absurd rfl (hns sqlId sql)
  | closeSql sqlId =>
    simp only [handleRequest]
    split
    · exact Nat.le_refl _
    · exact length_removeA_le _ _
  | openStream sid =>
    simp only [handleRequest]
    split <;> exact Nat.le_refl _
  | closeStream sid =>
    simp only [handleRequest]
    split
    · exact Nat.le_refl _
    · split <;> exact Nat.le_refl _
  | execute sid =>
    simp only [handleRequest]
    split <;> exact Nat.le_refl _
  | batch sid =>
    simp only [handleRequest]
    split <;> exact Nat.le_refl _
  | sequence sid =>
    simp only [handleRequest]
    split
    · exact Nat.le_refl _
    · split <;> exact Nat.le_refl _
  | describe sid =>
    simp only [handleRequest]
    split
    · exact Nat.le_refl _
    · split <;> exact Nat.le_refl _
  | openCursor cid sid compiles =>
    simp only [handleRequest]
    split
    · exact Nat.le_refl _
    · split
      · exact Nat.le_refl _
      · split
        · exact Nat.le_refl _
        · split
          · exact Nat.le_refl _
          · split <;> exact Nat.le_refl _
  | closeCursor cid =>
    simp only [handleRequest]
    split
    · exact Nat.le_refl _
    · split
      · exact Nat.le_refl _
      · split
        · exact Nat.le_refl _
        · split <;> exact Nat.le_refl _
  | fetchCursor cid =>
    simp only [handleRequest]
    split
    · exact Nat.le_refl _
    · split
      · exact Nat.le_refl _
      · split
        · exact Nat.le_refl _
        · split <;> exact Nat.le_refl _
  | getAutocommit sid =>
    simp only [handleRequest]
    split
    · exact Nat.le_refl _
    · split <;> exact Nat.le_refl _

/-- C6: in every reachable session the stored-SQL table holds at most 150
entries; a `StoreSql` at the 150-entry cap with a fresh id fails with
`SqlTooMany` leaving the session unchanged; a `StoreSql` whose id is present
fails with `SqlExists` leaving the session unchanged; and only a successful
`StoreSql` ever grows the table. -/
theorem sql_store_bounded {v : Nat} {s : Session} (hr : Reachable v s) :
    s.sqls.length ≤ MAX_SQL_COUNT ∧
    (∀ sqlId sql, s.sqls.length = MAX_SQL_COUNT → lookupA sqlId s.sqls = none →
      handleRequest s (.storeSql sqlId sql) = (.err .sqlTooMany, s)) ∧
    (∀ sqlId sql w, lookupA sqlId s.sqls = some w →
      handleRequest s (.storeSql sqlId sql) = (.err .sqlExists, s)) ∧
    (∀ req, s.sqls.length < ((handleRequest s req).2).sqls.length →
      ∃ sqlId sql, req = .storeSql sqlId sql ∧ (handleRequest s req).1 = .ok) := by
  have inv := sessionInv_reachable hr
  refine ⟨inv.sqlsLe, ?_, ?_, ?_⟩
  · intro sqlId sql hlen hnone
    have hv2 : ¬ s.version < 2 := by
      intro hv
      rw [inv.sqlsVersion hv] at hlen
      simp [MAX_SQL_COUNT] at hlen
    simp only [handleRequest]
    rw [if_neg hv2, hnone]
    simp only [Option.isSome_none, Bool.false_eq_true, if_false]
    rw [if_pos (by omega : s.sqls.length ≥ MAX_SQL_COUNT)]
  · intro sqlId sql w hsome
    have hv2 : ¬ s.version < 2 := by
      intro hv
      rw [inv.sqlsVersion hv] at hsome
      simp [lookupA] at hsome
    simp only [handleRequest]
    rw [if_neg hv2, hsome]
    simp only [Option.isSome_some, if_true]
  · intro req hgt
    cases req with
    | storeSql sqlId sql =>
      refine ⟨sqlId, sql, rfl, ?_⟩
      simp only [handleRequest] at hgt ⊢
      by_cases hv : s.version < 2
      · rw [if_pos hv] at hgt
        exact absurd hgt (Nat.lt_irrefl _)
      · rw [if_neg hv] at hgt ⊢
        by_cases hlq : (lookupA sqlId s.sqls).isSome = true
        · rw [if_pos hlq] at hgt
          exact absurd hgt (Nat.lt_irrefl _)
        · rw [if_neg hlq] at hgt ⊢
          by_cases hlen : s.sqls.length ≥ MAX_SQL_COUNT
          · rw [if_pos hlen] at hgt
            exact absurd hgt (Nat.lt_irrefl _)
          · rw [if_neg hlen] at hgt ⊢
    | openStream sid =>
      exact absurd hgt (Nat.not_lt.mpr (handleRequest_sqls_le s _ (by intro a b h; cases h)))
    | closeStream sid =>
      exact absurd hgt (Nat.not_lt.mpr (handleRequest_sqls_le s _ (by intro a b h; cases h)))
    | execute sid =>
      exact absurd hgt (Nat.not_lt.mpr (handleRequest_sqls_le s _ (by intro a b h; cases h)))
    | batch sid =>
      exact absurd hgt (Nat.not_lt.mpr (handleRequest_sqls_le s _ (by intro a b h; cases h)))
    | sequence sid =>
      exact absurd hgt (Nat.not_lt.mpr (handleRequest_sqls_le s _ (by intro a b h; cases h)))
    | describe sid =>
      exact absurd hgt (Nat.not_lt.mpr (handleRequest_sqls_le s _ (by intro a b h; cases h)))
    | closeSql sqlId =>
      exact absurd hgt (Nat.not_lt.mpr (handleRequest_sqls_le s _ (by intro a b h; cases h)))
    | openCursor cid sid compiles =>
      exact absurd hgt (Nat.not_lt.mpr (handleRequest_sqls_le s _ (by intro a b h; cases h)))
    | closeCursor cid =>
      exact absurd hgt (Nat.not_lt.mpr (handleRequest_sqls_le s _ (by intro a b h; cases h)))
    | fetchCursor cid =>
      exact absurd hgt (Nat.not_lt.mpr (handleRequest_sqls_le s _ (by intro a b h; cases h)))
    | getAutocommit sid =>
      exact absurd hgt (Nat.not_lt.mpr (handleRequest_sqls_le s _ (by intro a b h; cases h)))

theorem sql_store_bounded_witness :
    ((handleRequest (initialSession 2) (.storeSql 1 "SELECT 1")).2).sqls.length ≤
      MAX_SQL_COUNT ∧
    handleRequest ((handleRequest (initialSession 2) (.storeSql 1 "SELECT 1")).2)
      (.storeSql 1 "SELECT 2") =
      (.err .sqlExists, (handleRequest (initialSession 2) (.storeSql 1 "SELECT 1")).2) := by
  obtain ⟨h1, h2, h3, h4⟩ := sql_store_bounded
    (Reachable.step (.storeSql 1 "SELECT 1") (Reachable.init (v := 2)))
  exact ⟨h1, h3 1 "SELECT 2" "SELECT 1" (by rfl)⟩

/-- C7: in every reachable session the cursor table is exactly as large as
the number of streams holding an open cursor, every cursor entry points at a
stream present in the table whose `cursor_id` points back at the cursor, and
the `assert_eq!` checks in the `CloseCursor` and `FetchCursor` arms can never
fail. -/
theorem cursor_stream_invariant {v : Nat} {s : Session} (hr : Reachable v s) :
    s.cursors.length = (s.streams.countP fun p => p.2.cursorId.isSome) ∧
    (∀ cid sid, (cid, sid) ∈ s.cursors →
      ∃ h, lookupA sid s.streams = some h ∧ h.cursorId = some cid) ∧
    (∀ req, (handleRequest s req).1 ≠ .assertFailed) := by
  have inv := sessionInv_reachable hr
  exact ⟨inv.cursorCount, inv.cursorStream, fun req => (sessionInv_step s req inv).2⟩

theorem cursor_stream_invariant_witness :
    ((handleRequest (handleRequest (initialSession 3) (.openStream 1)).2
        (.openCursor 5 1 true)).2).cursors.length =
      (((handleRequest (handleRequest (initialSession 3) (.openStream 1)).2
        (.openCursor 5 1 true)).2).streams.countP fun p => p.2.cursorId.isSome) ∧
    (handleRequest ((handleRequest (handleRequest (initialSession 3) (.openStream 1)).2
        (.openCursor 5 1 true)).2) (.fetchCursor 5)).1 ≠ .assertFailed := by
  obtain ⟨h1, h2, h3⟩ := cursor_stream_invariant
    (Reachable.step (.openCursor 5 1 true)
      (Reachable.step (.openStream 1) (Reachable.init (v := 3))))
  exact ⟨h1, h3 (.fetchCursor 5)⟩

end Sqld
